import Mathlib

/-!
Shallow embedding of `scripts/generate_build_matrix.py`.

The script discovers snippet directories named `Slot{n}_{MODULE}`, builds the
cartesian product of the modules per slot, and renders YAML `include:` entries.
Filesystem state is modelled by `FS` (existence flag plus the directory
listing); Python strings are Lean `String`s compared lexicographically by code
point (`strLe`), matching CPython `str` ordering; `re.fullmatch` of the pattern
`Slot(\d+)_(.+)` is modelled by `parseSlotChars` (ASCII digit run, then an
underscore, then a non-empty remainder without a newline, which is exactly the
language of that anchored regex over ASCII digits).  Python iterators are
modelled by `PyIterable`: a tuple is re-iterable, while an `itertools.product`
object is one-shot (its second traversal yields nothing).
-/

/-- Lexicographic comparison of character lists by code point, the ordering
CPython uses for `str` comparison (and hence for `sorted` over same-directory
paths and module names). -/
def charListLe : List Char → List Char → Bool
  | [], _ => true
  | _ :: _, [] => false
  | a :: as, b :: bs =>
    if a.toNat < b.toNat then true
    else if b.toNat < a.toNat then false
    else charListLe as bs

/-- String comparison by code points, as in Python `s1 <= s2`. -/
def strLe (a b : String) : Bool := charListLe a.data b.data

/-- Decimal digit character for a value below ten (`9` is the catch-all). -/
def digitChar (d : Nat) : Char :=
  if d = 0 then '0' else if d = 1 then '1' else if d = 2 then '2'
  else if d = 3 then '3' else if d = 4 then '4' else if d = 5 then '5'
  else if d = 6 then '6' else if d = 7 then '7' else if d = 8 then '8' else '9'

/-- Fuel-driven decimal printer; with fuel above `n` it prints `n` in decimal,
least significant digit written last, no leading zeros. -/
def natToDigitsAux : Nat → Nat → List Char
  | 0, _ => []
  | fuel + 1, n =>
    if n < 10 then [digitChar n]
    else natToDigitsAux fuel (n / 10) ++ [digitChar (n % 10)]

/-- Decimal representation of a natural number, as Python `f"{n}"` renders an
`int` (non-negative case). -/
def natToDigits (n : Nat) : List Char := natToDigitsAux (n + 1) n

/-- Numeric value of a run of ASCII digit characters, as Python `int(s)`. -/
def digitsVal (ds : List Char) : Nat :=
  ds.foldl (fun n c => 10 * n + (c.toNat - 48)) 0

/-- One discovered snippet directory: dataclass `SlotSnippet` of the script. -/
structure SlotSnippet where
  slot : Nat
  module : String
deriving DecidableEq, Repr

/-- Property `SlotSnippet.snippet_name`: the display name
`f"Slot{self.slot}_{self.module}"`. -/
def SlotSnippet.snippet_name (s : SlotSnippet) : String :=
  "Slot" ++ String.mk (natToDigits s.slot) ++ "_" ++ s.module

/-- One child of the snippets directory: its name and whether it is itself a
directory (all `entry.is_dir()` consults). -/
structure DirEntry where
  name : String
  isDir : Bool
deriving DecidableEq, Repr

/-- The filesystem state the script reads: whether the snippets directory
exists, and its immediate children in the order the OS lists them. -/
structure FS where
  dirExists : Bool
  entries : List DirEntry
deriving DecidableEq, Repr

/-- Model of `re.fullmatch(r"Slot(\d+)_(.+)", name)` on the characters of
`name`, returning `(int(digit run), module)`: the name must be `Slot`, then a
non-empty ASCII digit run, then `_`, then a non-empty remainder containing no
newline (regex `.` does not match a newline). -/
def parseSlotChars (cs : List Char) : Option (Nat × String) :=
  let ds := (cs.drop 4).takeWhile Char.isDigit
  let tl := (cs.drop 4).dropWhile Char.isDigit
  if cs.take 4 = ['S', 'l', 'o', 't'] ∧ ds ≠ [] ∧ tl.head? = some '_' ∧
      tl.tail ≠ [] ∧ ∀ c ∈ tl.tail, c ≠ '\n' then
    some (digitsVal ds, String.mk tl.tail)
  else none

/-- Pattern match of a directory name against `Slot(\d+)_(.+)`. -/
def parseSlotName (name : String) : Option (Nat × String) := parseSlotChars name.data

/-- Body of the discovery loop for one entry: skip non-directories and
non-matching names, otherwise yield the parsed `SlotSnippet`. -/
def entrySnippet (e : DirEntry) : Option SlotSnippet :=
  if e.isDir then (parseSlotName e.name).map (fun p => ⟨p.1, p.2⟩) else none

/-- One `slots.setdefault(slot, []).append(snippet)` step on an association
list kept in key-insertion order, the iteration order of a Python dict. -/
def addSnippet : List (Nat × List SlotSnippet) → SlotSnippet → List (Nat × List SlotSnippet)
  | [], s => [(s.slot, [s])]
  | (k, vs) :: rest, s =>
    if k = s.slot then (k, vs ++ [s]) :: rest else (k, vs) :: addSnippet rest s

/-- The grouping-by-slot accumulation of the discovery loop. -/
def groupBySlot (l : List SlotSnippet) : List (Nat × List SlotSnippet) :=
  l.foldl addSnippet []

/-- Ordering of directory entries used by `sorted(snippets_dir.iterdir())`:
paths under one parent compare by their final component string. -/
def entryLE (a b : DirEntry) : Prop := strLe a.name b.name = true

instance : DecidableRel entryLE :=
  fun a b => inferInstanceAs (Decidable (strLe a.name b.name = true))

/-- Ordering of snippets used by `slots[slot].sort(key=lambda s: s.module)`. -/
def moduleLE (a b : SlotSnippet) : Prop := strLe a.module b.module = true

instance : DecidableRel moduleLE :=
  fun a b => inferInstanceAs (Decidable (strLe a.module b.module = true))

/-- Ordering of dict items used by `dict(sorted(slots.items()))` and by
`sorted(slots)`: ascending slot index. -/
def keyLE (a b : Nat × List SlotSnippet) : Prop := a.1 ≤ b.1

instance : DecidableRel keyLE := fun a b => inferInstanceAs (Decidable (a.1 ≤ b.1))

/-- Sorted directory listing. -/
def sortEntries (l : List DirEntry) : List DirEntry := List.insertionSort entryLE l

/-- Per-slot module-name sort. -/
def sortSnippets (l : List SlotSnippet) : List SlotSnippet := List.insertionSort moduleLE l

/-- Slot-index sort of the grouped association list. -/
def sortGroups (l : List (Nat × List SlotSnippet)) : List (Nat × List SlotSnippet) :=
  List.insertionSort keyLE l

/-- `discover_slot_snippets`: raise `SystemExit` (modelled as `Except.error`)
when the directory is missing or nothing matched; otherwise group the matches
of the sorted listing by slot, sort each slot by module name and the mapping by
slot index.  A `SlotGroup` (Python dict) is modelled as an association list in
iteration order, which the function returns sorted by key. -/
def discover_slot_snippets (fs : FS) : Except String (List (Nat × List SlotSnippet)) :=
  if fs.dirExists = false then .error "Snippets directory not found"
  else
    let groups := groupBySlot ((sortEntries fs.entries).filterMap entrySnippet)
    if groups = [] then .error "No slot snippets found"
    else .ok (sortGroups (groups.map (fun g => (g.1, sortSnippets g.2))))

/-- A Python iterable as the script hands it around: a materialised tuple
(re-iterable from the start) or a lazy iterator object such as
`itertools.product(...)`, whose `__iter__` returns itself, so a second
traversal resumes the exhausted state. -/
inductive PyIterable (α : Type) where
  | tuple : List α → PyIterable α
  | iterator : List α → PyIterable α
deriving DecidableEq

/-- The sequence a first `for` loop over the iterable receives. -/
def PyIterable.pass1 {α : Type} : PyIterable α → List α
  | .tuple l => l
  | .iterator l => l

/-- The sequence a second `for` loop (after a complete first traversal)
receives: a tuple restarts, an exhausted iterator yields nothing. -/
def PyIterable.pass2 {α : Type} : PyIterable α → List α
  | .tuple l => l
  | .iterator _ => []

/-- Cartesian product of a list of lists in `itertools.product` order: the
first factor varies slowest, the last varies fastest. -/
def listProd {α : Type} : List (List α) → List (List α)
  | [] => [[]]
  | xs :: rest => xs.flatMap (fun x => (listProd rest).map (fun ys => x :: ys))

/-- `iter_combinations`: the empty tuple when no slots exist, otherwise the
`itertools.product` iterator over the per-slot lists in ascending slot-index
order. -/
def iter_combinations (slots : List (Nat × List SlotSnippet)) : PyIterable (List SlotSnippet) :=
  let ordered := (sortGroups slots).map Prod.snd
  if ordered = [] then .tuple [] else .iterator (listProd ordered)

/-- The five output lines the emission loop appends for one combination. -/
def recordBlock (base_snippets : List String) (board shield artifactPrefix : String)
    (combo : List SlotSnippet) : List String :=
  ["  - board: " ++ board,
   "    shield: " ++ shield,
   "    snippet: " ++ String.intercalate " " (base_snippets ++ combo.map SlotSnippet.snippet_name),
   "    artifact-name: " ++ artifactPrefix ++ "_" ++
     String.intercalate "_" (combo.map SlotSnippet.module),
   ""]

/-- The guard `limit is not None and emitted >= limit`. -/
def limitReached : Option Int → Nat → Bool
  | none, _ => false
  | some l, emitted => decide (l ≤ (emitted : Int))

/-- The emission loop of `build_yaml_lines`, carrying the accumulated lines
and the `emitted` counter. -/
def buildLoop (base_snippets : List String) (board shield artifactPrefix : String)
    (limit : Option Int) :
    List (List SlotSnippet) → List String → Nat → List String × Nat
  | [], lines, emitted => (lines, emitted)
  | combo :: rest, lines, emitted =>
    if limitReached limit emitted then (lines, emitted)
    else
      buildLoop base_snippets board shield artifactPrefix limit rest
        (lines ++ recordBlock base_snippets board shield artifactPrefix combo) (emitted + 1)

/-- `build_yaml_lines`: header lines, then one block per combination until the
optional limit cuts emission off; returns the lines and the emitted count. -/
def build_yaml_lines (combinations : List (List SlotSnippet)) (base_snippets : List String)
    (board shield artifactPrefix : String) (limit : Option Int) : List String × Nat :=
  buildLoop base_snippets board shield artifactPrefix limit combinations ["---", "include:"] 0

/-- `append_settings_reset`: the fixed sentinel block. -/
def append_settings_reset (lines : List String) (board : String) : List String :=
  lines ++ ["  - board: " ++ board, "    shield: settings_reset", ""]

/-- The trailing-blank-line cleanup at the end of `main`. -/
def stripTrailingBlank (lines : List String) : List String :=
  if lines.getLast? = some "" then lines.dropLast else lines

/-- The line list `main` prints for a discovered slot group (non-dry-run
path): build, optionally append the sentinel, drop a trailing blank line. -/
def mainLines (slots : List (Nat × List SlotSnippet)) (base_snippets : List String)
    (board shield artifactPrefix : String) (limit : Option Int)
    (skip_settings_reset : Bool) : List String :=
  let combos := (iter_combinations slots).pass1
  let lines := (build_yaml_lines combos base_snippets board shield artifactPrefix limit).1
  stripTrailingBlank (if skip_settings_reset then lines else append_settings_reset lines board)

/-- The whole pipeline of `main` (non-dry-run): discovery, combination,
formatting; a discovery failure terminates the process with the diagnostic and
no primary output. -/
def generateOutput (fs : FS) (base_snippets : List String)
    (board shield artifactPrefix : String) (limit : Option Int)
    (skip_settings_reset : Bool) : Except String String :=
  match discover_slot_snippets fs with
  | .error e => .error e
  | .ok slots =>
    .ok (String.intercalate "\n"
      (mainLines slots base_snippets board shield artifactPrefix limit skip_settings_reset))

/-- Recognises the opening line of an output record (product record or
sentinel): the other line shapes the script emits never start with these ten
characters. -/
def isRecordLine (s : String) : Bool := decide (s.data.take 10 = "  - board:".data)

/-- Recognises the sentinel record's shield line. -/
def isSentinelShieldLine (s : String) : Bool := decide (s = "    shield: settings_reset")

/-- Number of output records among the lines. -/
def recordCount (lines : List String) : Nat := lines.countP isRecordLine

/-- Number of sentinel shield lines among the lines. -/
def sentinelCount (lines : List String) : Nat := lines.countP isSentinelShieldLine

deriving instance DecidableEq for Except

/-! ### Arithmetic facts about the decimal printer and parser -/

theorem isDigit_toNat {c : Char} (h : c.isDigit = true) : 48 ≤ c.toNat ∧ c.toNat ≤ 57 := by
  simp [Char.isDigit] at h
  exact h

theorem char_toNat_inj {a b : Char} (h : a.toNat = b.toNat) : a = b := by
  rw [← Char.ofNat_toNat a, ← Char.ofNat_toNat b, h]

theorem digitChar_toNat {d : Nat} (h : d < 10) : (digitChar d).toNat = 48 + d := by
  interval_cases d <;> rfl

theorem digitChar_of_isDigit {c : Char} (h : c.isDigit = true) :
    digitChar (c.toNat - 48) = c := by
  obtain ⟨h1, h2⟩ := isDigit_toNat h
  apply char_toNat_inj
  rw [digitChar_toNat (by omega)]
  omega

theorem foldl_digits_le (ds : List Char) :
    ∀ n : Nat, n ≤ ds.foldl (fun n c => 10 * n + (c.toNat - 48)) n := by
  induction ds with
  | nil => intro n; simp
  | cons c cs ih =>
    intro n
    have h := ih (10 * n + (c.toNat - 48))
    simp only [List.foldl_cons]
    omega

theorem digitsVal_pos {c : Char} (cs : List Char) (hd : c.isDigit = true) (hne : c ≠ '0') :
    1 ≤ digitsVal (c :: cs) := by
  obtain ⟨h1, h2⟩ := isDigit_toNat hd
  have h48 : c.toNat ≠ 48 := by
    intro h
    exact hne (char_toNat_inj (by rw [h]; rfl))
  have hfold := foldl_digits_le cs (c.toNat - 48)
  simp only [digitsVal, List.foldl_cons, Nat.mul_zero, Nat.zero_add]
  omega

theorem digitsVal_concat (ds : List Char) (c : Char) :
    digitsVal (ds ++ [c]) = 10 * digitsVal ds + (c.toNat - 48) := by
  simp [digitsVal, List.foldl_append]

theorem natToDigitsAux_congr :
    ∀ f₁ f₂ n, n < f₁ → n < f₂ → natToDigitsAux f₁ n = natToDigitsAux f₂ n := by
  intro f₁
  induction f₁ with
  | zero => intro f₂ n h1 h2; omega
  | succ f ih =>
    intro f₂ n h1 h2
    cases f₂ with
    | zero => omega
    | succ g =>
      by_cases h10 : n < 10
      · simp [natToDigitsAux, h10]
      · have hlt : n / 10 < n := Nat.div_lt_self (by omega) (by omega)
        simp only [natToDigitsAux, if_neg h10]
        rw [ih g (n / 10) (by omega) (by omega)]

theorem natToDigits_lt {n : Nat} (h : n < 10) : natToDigits n = [digitChar n] := by
  simp [natToDigits, natToDigitsAux, h]

theorem natToDigitsAux_succ (fuel n : Nat) :
    natToDigitsAux (fuel + 1) n =
      if n < 10 then [digitChar n]
      else natToDigitsAux fuel (n / 10) ++ [digitChar (n % 10)] := rfl

theorem natToDigits_ge {n : Nat} (h : 10 ≤ n) :
    natToDigits n = natToDigits (n / 10) ++ [digitChar (n % 10)] := by
  have hlt : n / 10 < n := Nat.div_lt_self (by omega) (by omega)
  have h1 : natToDigits n = natToDigitsAux n (n / 10) ++ [digitChar (n % 10)] := by
    rw [natToDigits, natToDigitsAux_succ, if_neg (by omega : ¬ n < 10)]
  rw [h1, natToDigitsAux_congr n (n / 10 + 1) (n / 10) (by omega) (by omega)]
  rfl

theorem natToDigits_digitsVal :
    ∀ ds : List Char, ds ≠ [] → (∀ c ∈ ds, c.isDigit = true) →
    (ds.head? = some '0' → ds = ['0']) → natToDigits (digitsVal ds) = ds := by
  intro ds
  induction ds using List.reverseRecOn with
  | nil => intro h _ _; exact absurd rfl h
  | append_singleton l a ih =>
    intro _ hdig hz
    have ha : a.isDigit = true := hdig a (by simp)
    obtain ⟨ha1, ha2⟩ := isDigit_toNat ha
    cases l with
    | nil =>
      simp only [List.nil_append]
      have hv : digitsVal [a] = a.toNat - 48 := by simp [digitsVal]
      rw [hv, natToDigits_lt (by omega), digitChar_of_isDigit ha]
    | cons c0 t =>
      have hc0 : c0.isDigit = true := hdig c0 (by simp)
      have hne : c0 ≠ '0' := by
        intro he
        have h1 := hz (by simp [he])
        have hlen := congrArg List.length h1
        simp at hlen
      have hv : 1 ≤ digitsVal (c0 :: t) := digitsVal_pos t hc0 hne
      have hk : a.toNat - 48 < 10 := by omega
      rw [digitsVal_concat]
      have h10 : 10 ≤ 10 * digitsVal (c0 :: t) + (a.toNat - 48) := by omega
      rw [natToDigits_ge h10]
      have hdiv : (10 * digitsVal (c0 :: t) + (a.toNat - 48)) / 10 = digitsVal (c0 :: t) := by
        omega
      have hmod : (10 * digitsVal (c0 :: t) + (a.toNat - 48)) % 10 = a.toNat - 48 := by
        omega
      rw [hdiv, hmod, digitChar_of_isDigit ha,
        ih (by simp)
          (fun c hc => hdig c
            (by simp only [List.cons_append, List.mem_cons, List.mem_append] at hc ⊢; tauto))
          (fun hhz => (hne (Option.some.inj hhz)).elim)]

/-! ### Reconstruction facts about the name parser -/

theorem mk_append_mk (a b : List Char) : String.mk a ++ String.mk b = String.mk (a ++ b) := rfl

/-- Anatomy of a successful pattern match: the name is literally `Slot`, then
the digit run, then an underscore, then the module characters. -/
theorem parseSlotName_anatomy {name : String} {s : Nat} {m : String}
    (hp : parseSlotName name = some (s, m)) :
    s = digitsVal ((name.data.drop 4).takeWhile Char.isDigit) ∧
    m.data ≠ [] ∧
    ((name.data.drop 4).takeWhile Char.isDigit) ≠ [] ∧
    (∀ c ∈ (name.data.drop 4).takeWhile Char.isDigit, c.isDigit = true) ∧
    name.data = ['S', 'l', 'o', 't'] ++
      ((name.data.drop 4).takeWhile Char.isDigit ++ ('_' :: m.data)) := by
  simp only [parseSlotName, parseSlotChars] at hp
  split at hp
  case isFalse => exact absurd hp (by simp)
  case isTrue hcond =>
    obtain ⟨h4, hds, hhd, htl, hnl⟩ := hcond
    obtain ⟨r, hr⟩ : ∃ r, (name.data.drop 4).dropWhile Char.isDigit = '_' :: r := by
      cases hc : (name.data.drop 4).dropWhile Char.isDigit with
      | nil => rw [hc] at hhd; simp at hhd
      | cons c0 r0 =>
        rw [hc] at hhd
        simp only [List.head?_cons, Option.some.injEq] at hhd
        exact ⟨r0, by rw [hhd]⟩
    simp only [Option.some.injEq, Prod.mk.injEq] at hp
    obtain ⟨hs, hm⟩ := hp
    refine ⟨hs.symm, ?_, hds, fun c hc => List.mem_takeWhile_imp hc, ?_⟩
    · rw [← hm, hr]
      rw [hr] at htl
      simpa using htl
    · have hsplit : name.data = name.data.take 4 ++ name.data.drop 4 :=
        (List.take_append_drop 4 name.data).symm
      have hdt : name.data.drop 4 =
          (name.data.drop 4).takeWhile Char.isDigit ++
            (name.data.drop 4).dropWhile Char.isDigit :=
        (List.takeWhile_append_dropWhile _ _).symm
      have hmdata : m.data = r := by rw [← hm, hr]; rfl
      rw [hmdata]
      conv_lhs => rw [hsplit, h4, hdt, hr]

/-- C10: round-trip of discovery and display naming.  For every directory name
matching the `Slot<digits>_<module>` pattern whose digit run has no leading
zeros (it is `0` itself or does not start with `0`), the `snippet_name` of the
parsed `SlotSnippet` is the original name character for character. -/
theorem snippet_name_roundtrip (name : String) (s : Nat) (m : String)
    (hp : parseSlotName name = some (s, m))
    (hz : ((name.data.drop 4).takeWhile Char.isDigit).head? = some '0' →
      (name.data.drop 4).takeWhile Char.isDigit = ['0']) :
    SlotSnippet.snippet_name ⟨s, m⟩ = name := by
  obtain ⟨hs, hm, hds, hdig, hdata⟩ := parseSlotName_anatomy hp
  have hnd : natToDigits (digitsVal ((name.data.drop 4).takeWhile Char.isDigit)) =
      (name.data.drop 4).takeWhile Char.isDigit :=
    natToDigits_digitsVal _ hds hdig hz
  have key : SlotSnippet.snippet_name ⟨s, m⟩ =
      String.mk (((['S', 'l', 'o', 't'] ++ natToDigits s) ++ ['_']) ++ m.data) := rfl
  rw [key, hs, hnd]
  show _ = String.mk name.data
  apply congrArg String.mk
  conv_rhs => rw [hdata]
  simp

/-- Witness for C10 at the concrete name `Slot10_Foo`. -/
theorem snippet_name_roundtrip_witness :
    parseSlotName "Slot10_Foo" = some (10, "Foo") ∧
      SlotSnippet.snippet_name ⟨10, "Foo"⟩ = "Slot10_Foo" :=
  ⟨by decide, snippet_name_roundtrip "Slot10_Foo" 10 "Foo" (by decide) (by decide)⟩

/-! ### The Combiner: cartesian product facts -/

theorem listProd_length {α : Type} :
    ∀ ls : List (List α), (listProd ls).length = (ls.map List.length).prod
  | [] => by simp [listProd]
  | xs :: rest => by
    simp only [listProd, List.map_cons, List.prod_cons]
    have h : ∀ l : List α,
        (l.flatMap fun x => (listProd rest).map (x :: ·)).length =
          l.length * (listProd rest).length := by
      intro l
      induction l with
      | nil => simp
      | cons x t ih => simp [ih, Nat.succ_mul, Nat.add_comm]
    rw [h xs, listProd_length rest]

theorem sortGroups_ne_nil {g : List (Nat × List SlotSnippet)} (hne : g ≠ []) :
    sortGroups g ≠ [] := by
  intro h
  have hperm : (sortGroups g).Perm g := List.perm_insertionSort keyLE g
  rw [h] at hperm
  exact hne hperm.symm.eq_nil

theorem iter_combinations_pass1 (g : List (Nat × List SlotSnippet)) (hne : g ≠ []) :
    (iter_combinations g).pass1 = listProd ((sortGroups g).map Prod.snd) := by
  have hone : (sortGroups g).map Prod.snd ≠ [] := by
    simp [sortGroups_ne_nil hne]
  simp only [iter_combinations, if_neg hone]
  rfl

/-- C1: for every non-empty slot group (each slot holding a non-empty entry
list), the number of combinations the Combiner produces is the product of the
per-slot entry counts. -/
theorem iter_combinations_length (g : List (Nat × List SlotSnippet))
    (hne : g ≠ []) (hvals : ∀ p ∈ g, p.2 ≠ []) :
    ((iter_combinations g).pass1).length = (g.map (fun p => p.2.length)).prod := by
  rw [iter_combinations_pass1 g hne, listProd_length, List.map_map]
  exact ((List.perm_insertionSort keyLE g).map (fun p => p.2.length)).prod_eq

/-- Witness for C1 on a two-slot group with two and one entries. -/
theorem iter_combinations_length_witness :
    ([((0 : Nat), [(⟨0, "A"⟩ : SlotSnippet), ⟨0, "B"⟩]), (1, [⟨1, "X"⟩])] ≠
        ([] : List (Nat × List SlotSnippet))) ∧
      ((iter_combinations [(0, [⟨0, "A"⟩, ⟨0, "B"⟩]), (1, [⟨1, "X"⟩])]).pass1).length =
        ([((0 : Nat), [(⟨0, "A"⟩ : SlotSnippet), ⟨0, "B"⟩]), (1, [⟨1, "X"⟩])].map
          (fun p => p.2.length)).prod :=
  ⟨by decide,
    iter_combinations_length [(0, [⟨0, "A"⟩, ⟨0, "B"⟩]), (1, [⟨1, "X"⟩])] (by decide)
      (by decide)⟩

/-- C2: combinations are emitted in cartesian-product order, slots ascending
by index and each slot in its stored order; on the group discovered from
directories `Slot0_Alpha`, `Slot0_Beta`, `Slot1_X` the sequence is exactly
`(Alpha, X)` then `(Beta, X)`. -/
theorem iter_combinations_ordered :
    (∀ g : List (Nat × List SlotSnippet), g ≠ [] →
      (iter_combinations g).pass1 = listProd ((sortGroups g).map Prod.snd)) ∧
    discover_slot_snippets
        ⟨true, [⟨"Slot0_Alpha", true⟩, ⟨"Slot0_Beta", true⟩, ⟨"Slot1_X", true⟩]⟩ =
      .ok [(0, [⟨0, "Alpha"⟩, ⟨0, "Beta"⟩]), (1, [⟨1, "X"⟩])] ∧
    (iter_combinations [(0, [⟨0, "Alpha"⟩, ⟨0, "Beta"⟩]), (1, [⟨1, "X"⟩])]).pass1 =
      [[⟨0, "Alpha"⟩, ⟨1, "X"⟩], [⟨0, "Beta"⟩, ⟨1, "X"⟩]] :=
  ⟨iter_combinations_pass1, by decide, by decide⟩

/-- Witness for C2's universally quantified part at a concrete group. -/
theorem iter_combinations_ordered_witness :
    (iter_combinations [((1 : Nat), [(⟨1, "M"⟩ : SlotSnippet)])]).pass1 =
      listProd ((sortGroups [(1, [⟨1, "M"⟩])]).map Prod.snd) :=
  iter_combinations_ordered.1 [(1, [⟨1, "M"⟩])] (by decide)

/-- C9: the empty slot group yields the empty tuple of combinations — zero
combinations rather than one empty combination, and no error. -/
theorem iter_combinations_empty :
    iter_combinations ([] : List (Nat × List SlotSnippet)) = PyIterable.tuple [] ∧
    (iter_combinations ([] : List (Nat × List SlotSnippet))).pass1 = [] ∧
    ((iter_combinations ([] : List (Nat × List SlotSnippet))).pass1).length = 0 :=
  ⟨rfl, rfl, rfl⟩

/-- C5 (amended): the object `iter_combinations` returns is one-shot — a
second traversal from the start always yields the empty sequence, so it
restarts identically only when the first traversal is itself empty. -/
theorem iter_combinations_second_pass (g : List (Nat × List SlotSnippet)) :
    (iter_combinations g).pass2 = [] ∧
    ((iter_combinations g).pass2 = (iter_combinations g).pass1 ↔
      (iter_combinations g).pass1 = []) := by
  have h2 : (iter_combinations g).pass2 = [] := by
    rw [iter_combinations]
    split
    · rfl
    · rfl
  refine ⟨h2, ?_⟩
  rw [h2]
  exact eq_comm

/-- C5 (counterexample): on a one-slot group with one module, the first
traversal yields one combination but the second yields nothing, so the
returned sequence is not restartable. -/
theorem iter_combinations_not_restartable :
    (iter_combinations [(0, [⟨0, "A"⟩])]).pass2 ≠
      (iter_combinations [(0, [⟨0, "A"⟩])]).pass1 := by decide

/-! ### The Formatter: emission loop facts -/

theorem buildLoop_none (bs : List String) (board shield ap : String) :
    ∀ (combos : List (List SlotSnippet)) (acc : List String) (e : Nat),
      buildLoop bs board shield ap none combos acc e =
        (acc ++ (combos.map (recordBlock bs board shield ap)).flatten, e + combos.length) := by
  intro combos
  induction combos with
  | nil => intro acc e; simp [buildLoop]
  | cons c rest ih =>
    intro acc e
    simp only [buildLoop, limitReached, Bool.false_eq_true, if_false]
    rw [ih, List.map_cons, List.flatten_cons, List.length_cons, ← List.append_assoc]
    congr 1
    omega

theorem buildLoop_some (bs : List String) (board shield ap : String) (L : Int) (hL : 0 ≤ L) :
    ∀ (combos : List (List SlotSnippet)) (acc : List String) (e : Nat), e ≤ L.toNat →
      buildLoop bs board shield ap (some L) combos acc e =
        (acc ++ ((combos.take (L.toNat - e)).map (recordBlock bs board shield ap)).flatten,
          min L.toNat (e + combos.length)) := by
  intro combos
  induction combos with
  | nil =>
    intro acc e he
    simp only [buildLoop, List.take_nil, List.map_nil, List.flatten_nil, List.append_nil,
      List.length_nil, Nat.add_zero]
    congr 1
    omega
  | cons c rest ih =>
    intro acc e he
    by_cases hlim : L.toNat ≤ e
    · have hcond : limitReached (some L) e = true := by
        simp only [limitReached, decide_eq_true_eq]
        omega
      simp only [buildLoop, hcond, if_true]
      have h0 : L.toNat - e = 0 := by omega
      rw [h0]
      simp only [List.take_zero, List.map_nil, List.flatten_nil, List.append_nil,
        List.length_cons]
      congr 1
      omega
    · have hcond : limitReached (some L) e = false := by
        simp only [limitReached, decide_eq_false_iff_not]
        omega
      simp only [buildLoop, hcond, Bool.false_eq_true, if_false]
      rw [ih _ (e + 1) (by omega)]
      rw [show L.toNat - e = (L.toNat - (e + 1)) + 1 by omega, List.take_succ_cons,
        List.map_cons, List.flatten_cons, List.length_cons, ← List.append_assoc]
      congr 1
      omega

theorem recordBlock_length (bs : List String) (board shield ap : String)
    (combo : List SlotSnippet) : (recordBlock bs board shield ap combo).length = 5 := rfl

theorem flatten_blocks_length (bs : List String) (board shield ap : String) :
    ∀ combos : List (List SlotSnippet),
      ((combos.map (recordBlock bs board shield ap)).flatten).length = 5 * combos.length := by
  intro combos
  induction combos with
  | nil => simp
  | cons c rest ih =>
    simp only [List.map_cons, List.flatten_cons, List.length_append, ih, recordBlock_length,
      List.length_cons]
    omega

/-! ### Line classification facts -/

theorem take10_of_append (pre rest : List Char) (h : 10 ≤ pre.length) :
    (pre ++ rest).take 10 = pre.take 10 :=
  List.take_append_of_le_length h

theorem str_data_inj {a b : String} (h : a.data = b.data) : a = b := by
  cases a
  cases b
  exact congrArg String.mk h

theorem isRecordLine_board_line (b : String) : isRecordLine ("  - board: " ++ b) = true := by
  unfold isRecordLine
  rw [show ("  - board: " ++ b).data = "  - board: ".data ++ b.data from rfl,
    take10_of_append _ _ (by decide)]
  decide

theorem isRecordLine_shield_line (s : String) : isRecordLine ("    shield: " ++ s) = false := by
  unfold isRecordLine
  rw [show ("    shield: " ++ s).data = "    shield: ".data ++ s.data from rfl,
    take10_of_append _ _ (by decide)]
  decide

theorem isRecordLine_snippet_line (s : String) : isRecordLine ("    snippet: " ++ s) = false := by
  unfold isRecordLine
  rw [show ("    snippet: " ++ s).data = "    snippet: ".data ++ s.data from rfl,
    take10_of_append _ _ (by decide)]
  decide

theorem isRecordLine_artifact_line (a b : String) :
    isRecordLine ("    artifact-name: " ++ a ++ "_" ++ b) = false := by
  unfold isRecordLine
  have h0 : ("    artifact-name: " ++ a ++ "_" ++ b).data =
      (("    artifact-name: ".data ++ a.data) ++ ['_']) ++ b.data := rfl
  rw [h0, List.append_assoc, List.append_assoc, take10_of_append _ _ (by decide)]
  decide

theorem str_ne_of_take {a b : String} (n : Nat) (h : a.data.take n ≠ b.data.take n) :
    a ≠ b := fun he => h (by rw [he])

theorem isSentinelShieldLine_board_line (b : String) :
    isSentinelShieldLine ("  - board: " ++ b) = false := by
  unfold isSentinelShieldLine
  apply decide_eq_false
  apply str_ne_of_take 3
  rw [show ("  - board: " ++ b).data = "  - board: ".data ++ b.data from rfl,
    List.take_append_of_le_length (by decide)]
  decide

theorem isSentinelShieldLine_shield_line (s : String) (hs : s ≠ "settings_reset") :
    isSentinelShieldLine ("    shield: " ++ s) = false := by
  unfold isSentinelShieldLine
  apply decide_eq_false
  intro he
  apply hs
  have hd : "    shield: ".data ++ s.data = "    shield: ".data ++ "settings_reset".data := by
    have h1 : ("    shield: " ++ s).data = "    shield: ".data ++ s.data := rfl
    have h2 : ("    shield: settings_reset" : String).data =
        "    shield: ".data ++ "settings_reset".data := by decide
    rw [← h1, ← h2, he]
  exact str_data_inj (List.append_cancel_left hd)

theorem isSentinelShieldLine_snippet_line (s : String) :
    isSentinelShieldLine ("    snippet: " ++ s) = false := by
  unfold isSentinelShieldLine
  apply decide_eq_false
  apply str_ne_of_take 7
  rw [show ("    snippet: " ++ s).data = "    snippet: ".data ++ s.data from rfl,
    List.take_append_of_le_length (by decide)]
  decide

theorem isSentinelShieldLine_artifact_line (a b : String) :
    isSentinelShieldLine ("    artifact-name: " ++ a ++ "_" ++ b) = false := by
  unfold isSentinelShieldLine
  apply decide_eq_false
  apply str_ne_of_take 7
  have h0 : ("    artifact-name: " ++ a ++ "_" ++ b).data =
      (("    artifact-name: ".data ++ a.data) ++ ['_']) ++ b.data := rfl
  rw [h0, List.append_assoc, List.append_assoc, List.take_append_of_le_length (by decide)]
  decide

/-! ### Record and sentinel counting -/

theorem recordBlock_recordCount (bs : List String) (board shield ap : String)
    (combo : List SlotSnippet) :
    (recordBlock bs board shield ap combo).countP isRecordLine = 1 := by
  simp [recordBlock, List.countP_cons, isRecordLine_board_line, isRecordLine_shield_line,
    isRecordLine_snippet_line, isRecordLine_artifact_line, List.countP_nil]
  decide

theorem recordBlock_sentinelCount (bs : List String) (board shield ap : String)
    (combo : List SlotSnippet) (hs : shield ≠ "settings_reset") :
    (recordBlock bs board shield ap combo).countP isSentinelShieldLine = 0 := by
  simp [recordBlock, List.countP_cons, isSentinelShieldLine_board_line,
    isSentinelShieldLine_shield_line _ hs, isSentinelShieldLine_snippet_line,
    isSentinelShieldLine_artifact_line, List.countP_nil]
  decide

theorem blocks_recordCount (bs : List String) (board shield ap : String) :
    ∀ combos : List (List SlotSnippet),
      ((combos.map (recordBlock bs board shield ap)).flatten).countP isRecordLine =
        combos.length := by
  intro combos
  induction combos with
  | nil => simp
  | cons c rest ih =>
    simp only [List.map_cons, List.flatten_cons, List.countP_append, ih,
      recordBlock_recordCount, List.length_cons]
    omega

theorem blocks_sentinelCount (bs : List String) (board shield ap : String)
    (hs : shield ≠ "settings_reset") :
    ∀ combos : List (List SlotSnippet),
      ((combos.map (recordBlock bs board shield ap)).flatten).countP isSentinelShieldLine
        = 0 := by
  intro combos
  induction combos with
  | nil => simp
  | cons c rest ih =>
    simp only [List.map_cons, List.flatten_cons, List.countP_append, ih,
      recordBlock_sentinelCount bs board shield ap c hs, Nat.add_zero]

theorem countP_stripTrailingBlank (p : String → Bool) (hp : p "" = false)
    (lines : List String) :
    (stripTrailingBlank lines).countP p = lines.countP p := by
  unfold stripTrailingBlank
  split
  case isTrue h =>
    have hne : lines ≠ [] := by
      intro he
      rw [he] at h
      simp at h
    have hl : lines.getLast hne = "" := by
      rw [List.getLast?_eq_getLast_of_ne_nil hne] at h
      exact Option.some.inj h
    conv_rhs => rw [← List.dropLast_append_getLast hne]
    rw [List.countP_append, hl]
    simp [List.countP_cons, hp]
  case isFalse => rfl

/-- C3: for every limit `L ≥ 0`, the emitted count returned by
`build_yaml_lines` — and the number of product-derived records among its
lines — is `min L total`; the sentinel block is appended in addition (three
more lines, one more record) and never counts against the limit. -/
theorem build_yaml_lines_limit (combos : List (List SlotSnippet)) (bs : List String)
    (board shield ap : String) (L : Int) (hL : 0 ≤ L) :
    (build_yaml_lines combos bs board shield ap (some L)).2 = min L.toNat combos.length ∧
    recordCount (build_yaml_lines combos bs board shield ap (some L)).1 =
      min L.toNat combos.length ∧
    (append_settings_reset (build_yaml_lines combos bs board shield ap (some L)).1
        board).length =
      (build_yaml_lines combos bs board shield ap (some L)).1.length + 3 ∧
    recordCount (append_settings_reset
        (build_yaml_lines combos bs board shield ap (some L)).1 board) =
      min L.toNat combos.length + 1 := by
  have hb : build_yaml_lines combos bs board shield ap (some L) =
      (["---", "include:"] ++
          ((combos.take (L.toNat - 0)).map (recordBlock bs board shield ap)).flatten,
        min L.toNat (0 + combos.length)) :=
    buildLoop_some bs board shield ap L hL combos ["---", "include:"] 0 (by omega)
  have hcount : recordCount (["---", "include:"] ++
      ((combos.take (L.toNat - 0)).map (recordBlock bs board shield ap)).flatten) =
      min L.toNat combos.length := by
    simp only [recordCount, List.countP_append, blocks_recordCount, List.length_take]
    have hh : List.countP isRecordLine ["---", "include:"] = 0 := by decide
    rw [hh]
    omega
  have hsent3 : List.countP isRecordLine
      ["  - board: " ++ board, "    shield: settings_reset", ""] = 1 := by
    simp only [List.countP_cons, List.countP_nil, isRecordLine_board_line]
    decide
  refine ⟨by rw [hb]; simp, by rw [hb]; exact hcount, by simp [append_settings_reset], ?_⟩
  rw [hb]
  simp only [append_settings_reset, recordCount, List.countP_append] at hcount ⊢
  rw [hsent3]
  omega

/-- Witness for C3 at two combinations and limit one. -/
theorem build_yaml_lines_limit_witness :
    ((0 : Int) ≤ 1) ∧
    ((build_yaml_lines [[(⟨0, "A"⟩ : SlotSnippet)], [⟨0, "B"⟩]] [] "b" "s" "P" (some 1)).2 =
        min (Int.toNat 1) ([[(⟨0, "A"⟩ : SlotSnippet)], [⟨0, "B"⟩]].length) ∧
      recordCount
          (build_yaml_lines [[(⟨0, "A"⟩ : SlotSnippet)], [⟨0, "B"⟩]] [] "b" "s" "P"
            (some 1)).1 =
        min (Int.toNat 1) ([[(⟨0, "A"⟩ : SlotSnippet)], [⟨0, "B"⟩]].length) ∧
      (append_settings_reset
          (build_yaml_lines [[(⟨0, "A"⟩ : SlotSnippet)], [⟨0, "B"⟩]] [] "b" "s" "P"
            (some 1)).1 "b").length =
        (build_yaml_lines [[(⟨0, "A"⟩ : SlotSnippet)], [⟨0, "B"⟩]] [] "b" "s" "P"
            (some 1)).1.length + 3 ∧
      recordCount (append_settings_reset
          (build_yaml_lines [[(⟨0, "A"⟩ : SlotSnippet)], [⟨0, "B"⟩]] [] "b" "s" "P"
            (some 1)).1 "b") =
        min (Int.toNat 1) ([[(⟨0, "A"⟩ : SlotSnippet)], [⟨0, "B"⟩]].length) + 1) :=
  ⟨by decide, build_yaml_lines_limit [[⟨0, "A"⟩], [⟨0, "B"⟩]] [] "b" "s" "P" 1 (by decide)⟩

/-- C7: each record's snippet field is the base entries in order followed by
the display names in combination order, and the artifact name joins the given
name stem and the module names with underscores in combination order; for the
combination `(Slot0=Alpha, Slot1=X)` with stem `MDK` the artifact line reads
`MDK_Alpha_X`. -/
theorem build_yaml_lines_fields (combos : List (List SlotSnippet)) (bs : List String)
    (board shield ap : String) :
    (build_yaml_lines combos bs board shield ap none).1 =
      ["---", "include:"] ++
        (combos.map (fun combo =>
          ["  - board: " ++ board,
           "    shield: " ++ shield,
           "    snippet: " ++
             String.intercalate " " (bs ++ combo.map SlotSnippet.snippet_name),
           "    artifact-name: " ++ ap ++ "_" ++
             String.intercalate "_" (combo.map SlotSnippet.module),
           ""])).flatten ∧
    (build_yaml_lines [[⟨0, "Alpha"⟩, ⟨1, "X"⟩]] [] "b" "s" "MDK" none).1.get? 5 =
      some "    artifact-name: MDK_Alpha_X" :=
  ⟨congrArg Prod.fst (buildLoop_none bs board shield ap combos ["---", "include:"] 0),
    by decide⟩

/-- C6: with the settings-reset flag enabled (the default) exactly one
sentinel record — board copied, shield the constant `settings_reset`, no
snippet or artifact-name lines — is appended after all product records; with
the flag disabled the output holds exactly `total_combinations` records and no
sentinel. -/
theorem settings_reset_record (g : List (Nat × List SlotSnippet)) (bs : List String)
    (board shield ap : String) (hs : shield ≠ "settings_reset") :
    append_settings_reset
        (build_yaml_lines (iter_combinations g).pass1 bs board shield ap none).1 board =
      (build_yaml_lines (iter_combinations g).pass1 bs board shield ap none).1 ++
        ["  - board: " ++ board, "    shield: settings_reset", ""] ∧
    recordCount (mainLines g bs board shield ap none false) =
      ((iter_combinations g).pass1).length + 1 ∧
    sentinelCount (mainLines g bs board shield ap none false) = 1 ∧
    recordCount (mainLines g bs board shield ap none true) =
      ((iter_combinations g).pass1).length ∧
    sentinelCount (mainLines g bs board shield ap none true) = 0 := by
  have hb : build_yaml_lines (iter_combinations g).pass1 bs board shield ap none =
      (["---", "include:"] ++
          (((iter_combinations g).pass1).map (recordBlock bs board shield ap)).flatten,
        0 + ((iter_combinations g).pass1).length) :=
    buildLoop_none bs board shield ap (iter_combinations g).pass1 ["---", "include:"] 0
  have hrecl : recordCount (["---", "include:"] ++
      (((iter_combinations g).pass1).map (recordBlock bs board shield ap)).flatten) =
      ((iter_combinations g).pass1).length := by
    simp only [recordCount, List.countP_append, blocks_recordCount]
    have hh : List.countP isRecordLine ["---", "include:"] = 0 := by decide
    omega
  have hsentl : sentinelCount (["---", "include:"] ++
      (((iter_combinations g).pass1).map (recordBlock bs board shield ap)).flatten) = 0 := by
    simp only [sentinelCount, List.countP_append, blocks_sentinelCount bs board shield ap hs]
    decide
  have hrec3 : List.countP isRecordLine
      ["  - board: " ++ board, "    shield: settings_reset", ""] = 1 := by
    simp only [List.countP_cons, List.countP_nil, isRecordLine_board_line]
    decide
  have hsent3 : List.countP isSentinelShieldLine
      ["  - board: " ++ board, "    shield: settings_reset", ""] = 1 := by
    simp only [List.countP_cons, List.countP_nil, isSentinelShieldLine_board_line]
    decide
  refine ⟨rfl, ?_, ?_, ?_, ?_⟩
  · simp only [mainLines, hb, append_settings_reset, recordCount, Bool.false_eq_true,
      if_false, countP_stripTrailingBlank isRecordLine (by decide), List.countP_append]
    simp only [recordCount, List.countP_append] at hrecl
    rw [hrec3]
    omega
  · simp only [mainLines, hb, append_settings_reset, sentinelCount, Bool.false_eq_true,
      if_false, countP_stripTrailingBlank isSentinelShieldLine (by decide),
      List.countP_append]
    simp only [sentinelCount, List.countP_append] at hsentl
    rw [hsent3]
    omega
  · simp only [mainLines, hb, recordCount,
      countP_stripTrailingBlank isRecordLine (by decide)]
    simp only [recordCount] at hrecl
    simpa using hrecl
  · simp only [mainLines, hb, sentinelCount,
      countP_stripTrailingBlank isSentinelShieldLine (by decide)]
    simp only [sentinelCount] at hsentl
    simpa using hsentl

/-- Witness for C6 on a one-slot group. -/
theorem settings_reset_record_witness :
    ("sh" : String) ≠ "settings_reset" ∧
    recordCount (mainLines [((0 : Nat), [(⟨0, "A"⟩ : SlotSnippet)])] ["base"] "b" "sh" "P"
        none false) =
      ((iter_combinations [((0 : Nat), [(⟨0, "A"⟩ : SlotSnippet)])]).pass1).length + 1 ∧
    recordCount (mainLines [((0 : Nat), [(⟨0, "A"⟩ : SlotSnippet)])] ["base"] "b" "sh" "P"
        none true) =
      ((iter_combinations [((0 : Nat), [(⟨0, "A"⟩ : SlotSnippet)])]).pass1).length :=
  ⟨by decide,
    (settings_reset_record [(0, [⟨0, "A"⟩])] ["base"] "b" "sh" "P" (by decide)).2.1,
    (settings_reset_record [(0, [⟨0, "A"⟩])] ["base"] "b" "sh" "P" (by decide)).2.2.2.1⟩

/-! ### The Discoverer: failure modes -/

theorem addSnippet_ne_nil (g : List (Nat × List SlotSnippet)) (s : SlotSnippet) :
    addSnippet g s ≠ [] := by
  cases g with
  | nil => simp [addSnippet]
  | cons p rest =>
    obtain ⟨k, vs⟩ := p
    simp only [addSnippet]
    split
    · simp
    · simp

theorem foldl_addSnippet_ne_nil :
    ∀ (l : List SlotSnippet) (acc : List (Nat × List SlotSnippet)), acc ≠ [] →
      l.foldl addSnippet acc ≠ [] := by
  intro l
  induction l with
  | nil => intro acc h; simpa using h
  | cons c t ih =>
    intro acc _
    exact ih (addSnippet acc c) (addSnippet_ne_nil acc c)

theorem groupBySlot_eq_nil_iff (l : List SlotSnippet) : groupBySlot l = [] ↔ l = [] := by
  constructor
  · intro h
    cases l with
    | nil => rfl
    | cons c t =>
      exact absurd h
        (foldl_addSnippet_ne_nil t (addSnippet [] c) (addSnippet_ne_nil [] c))
  · intro h
    rw [h]
    rfl

theorem filterMap_sortEntries_eq_nil_iff (l : List DirEntry) :
    (sortEntries l).filterMap entrySnippet = [] ↔ ∀ e ∈ l, entrySnippet e = none := by
  rw [List.filterMap_eq_nil_iff]
  constructor
  · intro h e he
    exact h e ((List.mem_insertionSort entryLE).2 he)
  · intro h e he
    exact h e ((List.mem_insertionSort entryLE).1 he)

/-- C4: discovery fails with the directory-not-found diagnostic exactly when
the snippets directory is missing, and with the no-slots diagnostic exactly
when it exists but no child is a directory matching the pattern; both failures
abort the whole pipeline with that diagnostic and no output, and in every
other situation discovery succeeds (non-matching or non-directory entries are
silently ignored). -/
theorem discover_failure_modes (fs : FS) :
    (discover_slot_snippets fs = .error "Snippets directory not found" ↔
      fs.dirExists = false) ∧
    (discover_slot_snippets fs = .error "No slot snippets found" ↔
      (fs.dirExists = true ∧ ∀ e ∈ fs.entries, entrySnippet e = none)) ∧
    ((fs.dirExists = true ∧ ∃ e ∈ fs.entries, entrySnippet e ≠ none) →
      ∃ g, discover_slot_snippets fs = .ok g) ∧
    (∀ msg, discover_slot_snippets fs = .error msg →
      ∀ (bs : List String) (board shield ap : String) (limit : Option Int) (skip : Bool),
        generateOutput fs bs board shield ap limit skip = .error msg) := by
  have hmsg : ("Snippets directory not found" : String) ≠ "No slot snippets found" := by
    decide
  by_cases hex : fs.dirExists = false
  · have hd : discover_slot_snippets fs = .error "Snippets directory not found" := by
      simp [discover_slot_snippets, hex]
    refine ⟨⟨fun _ => hex, fun _ => hd⟩, ⟨?_, ?_⟩, ?_, ?_⟩
    · intro h
      rw [hd] at h
      exact absurd (Except.error.inj h) hmsg
    · intro ⟨h, _⟩
      rw [hex] at h
      exact absurd h (by simp)
    · intro ⟨h, _⟩
      rw [hex] at h
      exact absurd h (by simp)
    · intro msg hmsg2 bs board shield ap limit skip
      simp [generateOutput, hmsg2]
  · have hex' : fs.dirExists = true := by
      cases h : fs.dirExists
      · exact absurd h hex
      · rfl
    by_cases hM : groupBySlot ((sortEntries fs.entries).filterMap entrySnippet) = []
    · have hd : discover_slot_snippets fs = .error "No slot snippets found" := by
        simp [discover_slot_snippets, hex', hM]
      have hall : ∀ e ∈ fs.entries, entrySnippet e = none :=
        (filterMap_sortEntries_eq_nil_iff fs.entries).1 ((groupBySlot_eq_nil_iff _).1 hM)
      refine ⟨⟨?_, ?_⟩, ⟨fun _ => ⟨hex', hall⟩, fun _ => hd⟩, ?_, ?_⟩
      · intro h
        rw [hd] at h
        exact absurd (Except.error.inj h).symm hmsg
      · intro h
        rw [h] at hex'
        exact absurd hex' (by simp)
      · intro ⟨_, e, he, hne⟩
        exact absurd (hall e he) hne
      · intro msg hmsg2 bs board shield ap limit skip
        simp [generateOutput, hmsg2]
    · have hd : discover_slot_snippets fs =
          .ok (sortGroups
            ((groupBySlot ((sortEntries fs.entries).filterMap entrySnippet)).map
              (fun g => (g.1, sortSnippets g.2)))) := by
        simp [discover_slot_snippets, hex', hM]
      refine ⟨⟨?_, ?_⟩, ⟨?_, ?_⟩, fun _ => ⟨_, hd⟩, ?_⟩
      · intro h
        rw [hd] at h
        exact absurd h (by simp)
      · intro h
        rw [h] at hex'
        exact absurd hex' (by simp)
      · intro h
        rw [hd] at h
        exact absurd h (by simp)
      · intro ⟨_, hall⟩
        exact absurd ((groupBySlot_eq_nil_iff _).2
          ((filterMap_sortEntries_eq_nil_iff fs.entries).2 hall)) hM
      · intro msg hmsg2
        rw [hd] at hmsg2
        exact absurd hmsg2 (by simp)

/-- Witness for C4: a missing directory aborts the pipeline with the
directory-not-found diagnostic. -/
theorem discover_failure_modes_witness :
    discover_slot_snippets ⟨false, []⟩ = .error "Snippets directory not found" ∧
    generateOutput ⟨false, []⟩ [] "b" "s" "P" none false =
      .error "Snippets directory not found" :=
  ⟨((discover_failure_modes ⟨false, []⟩).1).2 rfl,
    (discover_failure_modes ⟨false, []⟩).2.2.2 "Snippets directory not found"
      (((discover_failure_modes ⟨false, []⟩).1).2 rfl) [] "b" "s" "P" none false⟩

/-! ### Order-theoretic facts about the code-point comparison -/

theorem charListLe_total : ∀ a b : List Char, charListLe a b = true ∨ charListLe b a = true
  | [], _ => Or.inl rfl
  | _ :: _, [] => Or.inr rfl
  | a :: as, b :: bs => by
    by_cases h1 : a.toNat < b.toNat
    · exact Or.inl (by simp [charListLe, h1])
    · by_cases h2 : b.toNat < a.toNat
      · exact Or.inr (by simp [charListLe, h2])
      · rcases charListLe_total as bs with h | h
        · exact Or.inl (by simp [charListLe, h1, h2, h])
        · exact Or.inr (by simp [charListLe, h1, h2, h])

theorem charListLe_trans : ∀ a b c : List Char,
    charListLe a b = true → charListLe b c = true → charListLe a c = true
  | [], _, _ => fun _ _ => rfl
  | a :: as, [], _ => fun h _ => by simp [charListLe] at h
  | _ :: _, _ :: _, [] => fun _ h => by simp [charListLe] at h
  | a :: as, b :: bs, c :: cs => fun h1 h2 => by
    simp only [charListLe] at h1 h2 ⊢
    by_cases hab : a.toNat < b.toNat
    · by_cases hbc : b.toNat < c.toNat
      · simp [show a.toNat < c.toNat by omega]
      · by_cases hcb : c.toNat < b.toNat
        · simp [hbc, hcb] at h2
        · simp [show a.toNat < c.toNat by omega]
    · by_cases hba : b.toNat < a.toNat
      · simp [hab, hba] at h1
      · by_cases hbc : b.toNat < c.toNat
        · simp [show a.toNat < c.toNat by omega]
        · by_cases hcb : c.toNat < b.toNat
          · simp [hbc, hcb] at h2
          · have hac1 : ¬ a.toNat < c.toNat := by omega
            have hac2 : ¬ c.toNat < a.toNat := by omega
            simp only [hab, hba, if_false] at h1
            simp only [hbc, hcb, if_false] at h2
            simp only [hac1, hac2, if_false]
            exact charListLe_trans as bs cs h1 h2

theorem charListLe_antisymm : ∀ a b : List Char,
    charListLe a b = true → charListLe b a = true → a = b
  | [], [] => fun _ _ => rfl
  | [], _ :: _ => fun _ h => by simp [charListLe] at h
  | _ :: _, [] => fun h _ => by simp [charListLe] at h
  | a :: as, b :: bs => fun h1 h2 => by
    simp only [charListLe] at h1 h2
    by_cases hab : a.toNat < b.toNat
    · simp [show ¬ b.toNat < a.toNat by omega, hab] at h2
    · by_cases hba : b.toNat < a.toNat
      · simp [hab, hba] at h1
      · simp only [hab, hba, if_false] at h1 h2
        rw [char_toNat_inj (by omega : a.toNat = b.toNat),
          charListLe_antisymm as bs h1 h2]

instance : IsTotal DirEntry entryLE :=
  ⟨fun a b => charListLe_total a.name.data b.name.data⟩

instance : IsTrans DirEntry entryLE :=
  ⟨fun a b c => charListLe_trans a.name.data b.name.data c.name.data⟩

instance : IsAntisymm DirEntry (fun a b => entryLE a b ∧ a.name ≠ b.name) :=
  ⟨fun a b h1 h2 =>
    absurd (str_data_inj (charListLe_antisymm a.name.data b.name.data h1.1 h2.1)) h1.2⟩

theorem sorted_strict_of_nodup {l : List DirEntry} (hs : List.Sorted entryLE l)
    (hn : (l.map DirEntry.name).Nodup) :
    l.Pairwise (fun a b => entryLE a b ∧ a.name ≠ b.name) := by
  induction l with
  | nil => simp
  | cons a t ih =>
    rw [List.sorted_cons] at hs
    simp only [List.map_cons, List.nodup_cons] at hn
    refine List.Pairwise.cons ?_ (ih hs.2 hn.2)
    intro b hb
    refine ⟨hs.1 b hb, ?_⟩
    intro he
    exact hn.1 (he ▸ List.mem_map_of_mem DirEntry.name hb)

theorem sortEntries_eq_of_perm {l₁ l₂ : List DirEntry} (hp : l₁.Perm l₂)
    (hn : (l₁.map DirEntry.name).Nodup) : sortEntries l₁ = sortEntries l₂ := by
  have hp1 : (sortEntries l₁).Perm l₁ := List.perm_insertionSort entryLE l₁
  have hp2 : (sortEntries l₂).Perm l₂ := List.perm_insertionSort entryLE l₂
  have hperm : (sortEntries l₁).Perm (sortEntries l₂) := hp1.trans (hp.trans hp2.symm)
  have hn1 : ((sortEntries l₁).map DirEntry.name).Nodup :=
    ((hp1.map DirEntry.name).nodup_iff).2 hn
  have hn2 : ((sortEntries l₂).map DirEntry.name).Nodup :=
    ((hp2.map DirEntry.name).nodup_iff).2 (((hp.map DirEntry.name).nodup_iff).1 hn)
  exact List.eq_of_perm_of_sorted hperm
    (sorted_strict_of_nodup (List.sorted_insertionSort entryLE l₁) hn1)
    (sorted_strict_of_nodup (List.sorted_insertionSort entryLE l₂) hn2)

/-- C8: on directory listings holding the same set of distinct names in any
two orders, discovery — and the whole pipeline for any parameters — produces
identical results: the output depends only on the set of names. -/
theorem pipeline_listing_order_invariant (fs₁ fs₂ : FS)
    (hex : fs₁.dirExists = fs₂.dirExists) (hp : fs₁.entries.Perm fs₂.entries)
    (hn : (fs₁.entries.map DirEntry.name).Nodup) :
    discover_slot_snippets fs₁ = discover_slot_snippets fs₂ ∧
    ∀ (bs : List String) (board shield ap : String) (limit : Option Int) (skip : Bool),
      generateOutput fs₁ bs board shield ap limit skip =
        generateOutput fs₂ bs board shield ap limit skip := by
  have hsort : sortEntries fs₁.entries = sortEntries fs₂.entries :=
    sortEntries_eq_of_perm hp hn
  have hdisc : discover_slot_snippets fs₁ = discover_slot_snippets fs₂ := by
    simp only [discover_slot_snippets, hex, hsort]
  exact ⟨hdisc, fun bs board shield ap limit skip => by
    simp only [generateOutput, hdisc]⟩

/-- Witness for C8: two listing orders of `Slot0_Alpha` and `Slot1_X` discover
the same slot group. -/
theorem pipeline_listing_order_invariant_witness :
    discover_slot_snippets ⟨true, [⟨"Slot1_X", true⟩, ⟨"Slot0_Alpha", true⟩]⟩ =
      discover_slot_snippets ⟨true, [⟨"Slot0_Alpha", true⟩, ⟨"Slot1_X", true⟩]⟩ :=
  (pipeline_listing_order_invariant
    ⟨true, [⟨"Slot1_X", true⟩, ⟨"Slot0_Alpha", true⟩]⟩
    ⟨true, [⟨"Slot0_Alpha", true⟩, ⟨"Slot1_X", true⟩]⟩ rfl (by decide) (by decide)).1
